import Mathlib

/-!
Verification development for the murxla model-based SMT-solver API fuzzer.

The definitions below are a shallow embedding of the C++ sources:
  * solver_manager.cpp (murxla variant, and where noted the older smtmbt
    variant): option selection, sort database, sat-state reset, operator-kind
    selection, symbol picking;
  * main.cpp: command-line handling (get_options, parse_options) and the
    early configuration checks in main;
  * options.hpp: the Options record and its defaults;
  * config.hpp: numeric limits.

Stateful C++ code is modelled by explicit state records; the PRNG is modelled
as an oracle (the raw draws are explicit arguments); C++ behavior that is
undefined (indexing an empty vector, modulo by zero) is modelled by Option
with none standing for the undefined case.
-/

namespace Murxla

/-- Sort kinds, from sort.hpp as used throughout the sources
(SORT_ANY is the transient unclassified tag). -/
inductive SortKind where
  | array
  | bag
  | bool
  | bv
  | dt
  | fp
  | fn
  | int
  | real
  | reglan
  | rm
  | seq
  | set
  | string
  | uninterpreted
  | any
deriving DecidableEq, Repr

/-- Theory identifiers, from theory.hpp as used in main.cpp and
solver_manager.cpp. -/
inductive TheoryId where
  | THEORY_ARRAY
  | THEORY_BAG
  | THEORY_BOOL
  | THEORY_BV
  | THEORY_DT
  | THEORY_FP
  | THEORY_INT
  | THEORY_QUANT
  | THEORY_REAL
  | THEORY_SEQ
  | THEORY_SET
  | THEORY_STRING
  | THEORY_TRANSCENDENTAL
  | THEORY_UF
deriving DecidableEq, Repr

/- ------------------------------------------------------------------------ -/
/- Option selection: SolverManager::pick_option (solver_manager.cpp)        -/
/- ------------------------------------------------------------------------ -/

/-- A solver option as consumed by SolverManager::pick_option.  Modelled from
the spec: solver_option.hpp is not among the sources; pick_option only reads
an option's name and its conflict and dependency name sets (get_name,
get_conflicts, get_depends), and draws a value via pick_value, which is
unconstrained and therefore omitted from the model. -/
structure SolverOpt where
  name : String
  conflicts : List String
  depends : List String
deriving DecidableEq, Repr

/-- The filter loop of SolverManager::pick_option: an option is available when
none of its conflicts is in used_options and all of its depends are. -/
def availableOpts (opts : List SolverOpt) (used : List String) : List SolverOpt :=
  opts.filter fun o =>
    (o.conflicts.all fun c => !(used.contains c))
    && (o.depends.all fun d => used.contains d)

/-- SolverManager::pick_option.  State: the solver-option list and the
used_options set (as a list).  The draw d_rng.pick of uint32 is the oracle
argument r.  Returns the chosen name and the updated used_options; the empty
option list returns the empty name as in the source; an empty candidate
vector makes the source index available with a modulus by zero, which is
undefined behavior, modelled as none. -/
def pick_option (opts : List SolverOpt) (used : List String) (r : Nat) :
    Option (String × List String) :=
  if opts.isEmpty then some ("", used)
  else
    let avail := availableOpts opts used
    match avail with
    | [] => none
    | a :: rest =>
      let l := a :: rest
      let o := l.get ⟨r % l.length, Nat.mod_lt _ (Nat.succ_pos _)⟩
      some (o.name, if used.contains o.name then used else o.name :: used)

/-- Membership in the available list implies the conflict and dependency
filters passed. -/
theorem mem_availableOpts {opts : List SolverOpt} {used : List String}
    {o : SolverOpt} (h : o ∈ availableOpts opts used) :
    o ∈ opts ∧ (∀ c ∈ o.conflicts, c ∉ used) ∧ (∀ d ∈ o.depends, d ∈ used) := by
  have h1 := List.mem_filter.mp h
  refine ⟨h1.1, ?_, ?_⟩
  · intro c hc
    have := List.all_eq_true.mp (Bool.and_elim_left h1.2) c hc
    simpa using this
  · intro d hd
    have := List.all_eq_true.mp (Bool.and_elim_right h1.2) d hd
    simpa using this

/-- A single option with no conflicts and no dependencies, used to exhibit
re-selection of an already-used option. -/
def c1CexOpt : SolverOpt := ⟨"opt-a", [], []⟩

/-- C1 (counterexample): pick_option does not filter out already-used options.
With the solver-option list ["opt-a"] (no conflicts, no depends), the first
call returns "opt-a" and puts it into used_options; a second call in that
state returns "opt-a" again even though it is already in used_options,
contradicting the claim that the chosen option is not yet used. -/
theorem c1_counterexample :
    pick_option [c1CexOpt] [] 0 = some ("opt-a", ["opt-a"])
    ∧ pick_option [c1CexOpt] ["opt-a"] 0 = some ("opt-a", ["opt-a"])
    ∧ "opt-a" ∈ (["opt-a"] : List String) := by
  decide

/-- C1 (amended): for every pair returned by SolverManager::pick_option when
the solver-option list is non-empty, the chosen option has no conflict in
used_options and all its depends in used_options, and after the call the
chosen name is in used_options.  (The source does not exclude already-used
options from the candidates.) -/
theorem c1_amended_pick_option (opts : List SolverOpt) (used usedA : List String)
    (r : Nat) (name : String)
    (hne : opts ≠ [])
    (hres : pick_option opts used r = some (name, usedA)) :
    ∃ o, o ∈ opts ∧ name = o.name
      ∧ (∀ c ∈ o.conflicts, c ∉ used)
      ∧ (∀ d ∈ o.depends, d ∈ used)
      ∧ name ∈ usedA := by
  unfold pick_option at hres
  rw [if_neg (by simpa using hne)] at hres
  rcases havail : availableOpts opts used with _ | ⟨a, rest⟩
  · rw [havail] at hres
    exact absurd hres (by simp)
  · rw [havail] at hres
    simp only [Option.some.injEq, Prod.mk.injEq] at hres
    obtain ⟨hname, hused⟩ := hres
    set o := (a :: rest).get ⟨r % (a :: rest).length, Nat.mod_lt _ (Nat.succ_pos _)⟩
      with ho
    have homem : o ∈ availableOpts opts used := by
      rw [havail]; exact List.get_mem _ _ _
    obtain ⟨hmem, hconf, hdep⟩ := mem_availableOpts homem
    refine ⟨o, hmem, hname.symm, hconf, hdep, ?_⟩
    subst hname
    by_cases hc : used.contains o.name
    · rw [if_pos hc] at hused
      subst hused
      simpa using hc
    · rw [if_neg hc] at hused
      subst hused
      exact List.mem_cons_self _ _

/-- C1 (witness): the amended theorem at a concrete state: an option with one
conflict not in used_options and one dependency in used_options is selected,
and its name is in used_options afterwards. -/
theorem c1_witness :
    ∃ o, o ∈ [SolverOpt.mk "opt-b" ["opt-c"] ["opt-d"]] ∧ "opt-b" = o.name
      ∧ (∀ c ∈ o.conflicts, c ∉ (["opt-d"] : List String))
      ∧ (∀ d ∈ o.depends, d ∈ (["opt-d"] : List String))
      ∧ "opt-b" ∈ (["opt-b", "opt-d"] : List String) :=
  c1_amended_pick_option [SolverOpt.mk "opt-b" ["opt-c"] ["opt-d"]]
    ["opt-d"] ["opt-b", "opt-d"] 0 "opt-b" (by decide) (by decide)

/-- C8: pick_option is total exactly under the precondition that some option
passes the conflict and dependency filters.  When the solver-option list is
non-empty and every option is filtered out, the candidate vector is empty and
the source computes a modulus by zero (undefined behavior, modelled as none);
when some option passes, the index r % available.size() is in bounds and the
call returns a pair. -/
theorem c8_pick_option_totality (opts : List SolverOpt) (used : List String)
    (r : Nat) (hne : opts ≠ []) :
    (availableOpts opts used = [] → pick_option opts used r = none)
    ∧ (availableOpts opts used ≠ [] →
        (pick_option opts used r).isSome = true
        ∧ r % (availableOpts opts used).length
            < (availableOpts opts used).length) := by
  constructor
  · intro hav
    unfold pick_option
    rw [if_neg (by simpa using hne), hav]
  · intro hav
    refine ⟨?_, Nat.mod_lt _ (List.length_pos.mpr hav)⟩
    unfold pick_option
    rw [if_neg (by simpa using hne)]
    rcases havail : availableOpts opts used with _ | ⟨a, rest⟩
    · exact absurd havail hav
    · simp

/-- C8 (witness): with the single option "a" conflicting with the used option
"x" the candidate vector is empty and the call is undefined; with the single
dependency-free, conflict-free option "a" and empty used_options the call
succeeds. -/
theorem c8_witness :
    pick_option [SolverOpt.mk "a" ["x"] []] ["x"] 3 = none
    ∧ (pick_option [SolverOpt.mk "a" [] []] [] 3).isSome = true := by
  constructor
  · exact (c8_pick_option_totality [SolverOpt.mk "a" ["x"] []] ["x"] 3
      (by decide)).1 (by decide)
  · exact ((c8_pick_option_totality [SolverOpt.mk "a" [] []] [] 3
      (by decide)).2 (by decide)).1

/- ------------------------------------------------------------------------ -/
/- Sat-state reset: SolverManager::reset_sat (solver_manager.cpp)           -/
/- ------------------------------------------------------------------------ -/

/-- The sat-state fragment of SolverManager: d_assumptions (terms, by id) and
the d_sat_called flag. -/
structure SatState where
  assumptions : List Nat
  sat_called : Bool
deriving DecidableEq, Repr

/-- SolverManager::clear_assumptions. -/
def clear_assumptions (st : SatState) : SatState := { st with assumptions := [] }

/-- SolverManager::reset_sat of the murxla variant of solver_manager.cpp:
clears the assumptions only when d_sat_called is set, then resets
d_sat_called.  (The older smtmbt variant clears unconditionally.) -/
def reset_sat (st : SatState) : SatState :=
  let st1 := if st.sat_called then clear_assumptions st else st
  { st1 with sat_called := false }

/-- C3 (counterexample): in a state with a non-empty assumptions set and
sat_called = false, reset_sat leaves the assumptions untouched, so the
assumptions set is not empty after the call, contrary to the claim that it is
emptied regardless of the prior state. -/
theorem c3_counterexample :
    (reset_sat ⟨[1], false⟩).assumptions = [1]
    ∧ ([1] : List Nat) ≠ [] := by
  decide

/-- C3 (amended): after every call to reset_sat the sat_called flag is false,
and the assumptions set is emptied exactly when a sat call had happened
(d_sat_called was set); otherwise it is left unchanged. -/
theorem c3_amended_reset_sat (st : SatState) :
    (reset_sat st).sat_called = false
    ∧ (reset_sat st).assumptions
        = (if st.sat_called then [] else st.assumptions) := by
  cases h : st.sat_called <;> simp [reset_sat, clear_assumptions, h]

/- ------------------------------------------------------------------------ -/
/- Options and its defaults (options.hpp)                                   -/
/- ------------------------------------------------------------------------ -/

/-- The Options record of options.hpp with its default member initializers.
The double-valued time limit and the solver_options list are omitted; all
other members are carried with their defaults. -/
structure Options where
  seed : Nat := 0
  verbosity : Nat := 0
  max_runs : Nat := 0
  is_seeded : Bool := false
  trace_seeds : Bool := false
  simple_symbols : Bool := true
  smt : Bool := false
  print_stats : Bool := false
  print_fsm : Bool := false
  arith_linear : Bool := false
  fuzz_options : Bool := false
  tmp_dir : String := "/tmp"
  out_dir : String := ""
  solver : String := ""
  solver_binary : String := ""
  api_trace_file_name : String := ""
  untrace_file_name : String := ""
  smt2_file_name : String := ""
  dd : Bool := false
  dd_ignore_out : Bool := false
  dd_ignore_err : Bool := false
  dd_match_out : String := ""
  dd_match_err : String := ""
  dd_trace_file_name : String := ""
  cross_check : String := ""
  check_solver_name : String := ""
  check_solver : Bool := false
  enabled_theories : List TheoryId := []
  disabled_theories : List TheoryId :=
    [TheoryId.THEORY_BAG, TheoryId.THEORY_SEQ, TheoryId.THEORY_SET]
  cmd_line_trace : String := ""
deriving Repr

/-- A default-constructed Options value, as in main(). -/
def defaultOptions : Options := {}

/-- C10: by default exactly the theories of bags, sequences and sets are
disabled: a theory is in the default disabled_theories iff it is THEORY_BAG,
THEORY_SEQ or THEORY_SET. -/
theorem c10_default_disabled_theories :
    ∀ t : TheoryId, t ∈ defaultOptions.disabled_theories ↔
      (t = TheoryId.THEORY_BAG ∨ t = TheoryId.THEORY_SEQ
        ∨ t = TheoryId.THEORY_SET) := by
  intro t
  cases t <;> simp [defaultOptions]

/- ------------------------------------------------------------------------ -/
/- The api-trace / untrace configuration check in main (main.cpp)           -/
/- ------------------------------------------------------------------------ -/

/-- Outcome of the configuration phase of main: either an error exit via
MURXLA_EXIT_ERROR (before the Murxla fuzzer is constructed), or the start of
a run with the given trace and untrace files. -/
inductive MainSetup where
  | configError (msg : String)
  | startRun (api_trace untrace : String)
deriving DecidableEq, Repr

/-- The check in main (main.cpp) after parse_options: exit with an error when
a non-empty API-trace output file equals the untrace input file; only
otherwise is the Murxla fuzzer constructed and a run performed. -/
def mainSetup (o : Options) : MainSetup :=
  if o.api_trace_file_name ≠ "" ∧ o.api_trace_file_name = o.untrace_file_name
  then .configError "tracing into the file that is untraced is not supported"
  else .startRun o.api_trace_file_name o.untrace_file_name

/-- C9: when the API-trace output file name is non-empty and equal to the
untrace input file name, main exits with the configuration error
"tracing into the file that is untraced is not supported" and no run is
started. -/
theorem c9_trace_untrace_conflict (o : Options)
    (h1 : o.api_trace_file_name ≠ "")
    (h2 : o.api_trace_file_name = o.untrace_file_name) :
    mainSetup o = MainSetup.configError
      "tracing into the file that is untraced is not supported" := by
  rw [mainSetup, if_pos ⟨h1, h2⟩]

/-- C9 (witness): tracing into "t.trace" while untracing "t.trace" is the
configuration error. -/
theorem c9_witness :
    mainSetup { defaultOptions with
        api_trace_file_name := "t.trace", untrace_file_name := "t.trace" }
      = MainSetup.configError
          "tracing into the file that is untraced is not supported" :=
  c9_trace_untrace_conflict _ (by decide) (by decide)

/- ------------------------------------------------------------------------ -/
/- Symbol picking: SolverManager::pick_symbol (solver_manager.cpp)          -/
/- ------------------------------------------------------------------------ -/

/-- MURXLA_SYMBOL_LEN_MAX from config.hpp. -/
def MURXLA_SYMBOL_LEN_MAX : Nat := 128

/-- Modelled from the spec: RNGenerator::pick of uint32 in [lo, hi] (rng.hpp
is not among the sources); the uniform draw is modelled as lo plus the raw
oracle draw modulo the range size. -/
def rngPick (lo hi r : Nat) : Nat := lo + r % (hi - lo + 1)

/-- The shape of a randomly picked symbol: a simple symbol or a piped symbol
of the given length (the character content, produced by
RNGenerator::pick_simple_symbol / pick_piped_symbol, is not modelled). -/
inductive SymbolChoice where
  | simpleSym (len : Nat)
  | pipedSym (len : Nat)
deriving DecidableEq, Repr

/-- SolverManager::pick_symbol in random mode (d_simple_symbols = false):
draw len in [0, MURXLA_SYMBOL_LEN_MAX]; return a piped symbol when len is
non-zero and the coin flip succeeds, a simple symbol otherwise. -/
def pick_symbol_random (r : Nat) (coin : Bool) : SymbolChoice :=
  let len := rngPick 0 MURXLA_SYMBOL_LEN_MAX r
  if len ≠ 0 ∧ coin = true then .pipedSym len else .simpleSym len

/-- SolverManager::pick_symbol in simple mode (d_simple_symbols = true):
return "_x" followed by d_n_symbols, post-incrementing the counter. -/
def pick_symbol_simple (n : Nat) : String × Nat := ("_x" ++ toString n, n + 1)

/-- k successive calls of pick_symbol in simple mode starting from counter
value n. -/
def pick_symbols_simple : Nat → Nat → List String
  | 0, _ => []
  | k + 1, n => (pick_symbol_simple n).1 :: pick_symbols_simple k (pick_symbol_simple n).2

/-- The successive simple-mode symbols are "_x" followed by consecutive
counter values. -/
theorem pick_symbols_simple_eq (k n : Nat) :
    pick_symbols_simple k n
      = (List.range k).map (fun i => "_x" ++ toString (n + i)) := by
  induction k generalizing n with
  | zero => rfl
  | succ k ih =>
    rw [List.range_succ_eq_map, List.map_cons, List.map_map]
    show ("_x" ++ toString n) :: pick_symbols_simple k (n + 1) = _
    rw [ih (n + 1)]
    refine congrArg₂ _ (by rw [Nat.add_zero]) ?_
    refine List.map_congr_left fun i _ => ?_
    have : n + 1 + i = n + (i + 1) := by omega
    simp [Function.comp, this]

/-- C7 (counterexample): in random mode, when the drawn length is 0 the
symbol is always simple even when the coin flip chose piped, so the
piped-vs-simple choice is not an unconditional 50/50 coin decision. -/
theorem c7_counterexample :
    pick_symbol_random 0 true = SymbolChoice.simpleSym 0
    ∧ SymbolChoice.simpleSym 0 ≠ SymbolChoice.pipedSym 0 := by
  decide

/-- C7 (amended): in simple mode pick_symbol returns "_x" followed by a
counter increasing by one on each call; in random mode it draws a length in
[0, 128] and returns a piped symbol of that length iff the length is non-zero
and the coin flip chose piped (for length 0 the symbol is always simple). -/
theorem c7_amended_pick_symbol (r k n : Nat) (coin : Bool) :
    (pick_symbol_random r coin
        = SymbolChoice.pipedSym (rngPick 0 MURXLA_SYMBOL_LEN_MAX r)
      ↔ (rngPick 0 MURXLA_SYMBOL_LEN_MAX r ≠ 0 ∧ coin = true))
    ∧ (pick_symbol_random r coin
          = SymbolChoice.pipedSym (rngPick 0 MURXLA_SYMBOL_LEN_MAX r)
        ∨ pick_symbol_random r coin
            = SymbolChoice.simpleSym (rngPick 0 MURXLA_SYMBOL_LEN_MAX r))
    ∧ rngPick 0 MURXLA_SYMBOL_LEN_MAX r ≤ MURXLA_SYMBOL_LEN_MAX
    ∧ pick_symbols_simple k n
        = (List.range k).map (fun i => "_x" ++ toString (n + i)) := by
  refine ⟨?_, ?_, ?_, pick_symbols_simple_eq k n⟩
  · unfold pick_symbol_random
    by_cases h : rngPick 0 MURXLA_SYMBOL_LEN_MAX r ≠ 0 ∧ coin = true
    · simp [h]
    · simp only [if_neg h]
      constructor
      · intro hc
        exact absurd hc (by simp)
      · intro hc
        exact absurd hc h
  · unfold pick_symbol_random
    by_cases h : rngPick 0 MURXLA_SYMBOL_LEN_MAX r ≠ 0 ∧ coin = true
    · simp [h]
    · simp [h]
  · unfold rngPick
    have := Nat.mod_lt r (show 0 < MURXLA_SYMBOL_LEN_MAX - 0 + 1 by decide)
    omega

/- ------------------------------------------------------------------------ -/
/- Sort database: SolverManager::add_sort (murxla solver_manager.cpp)       -/
/- ------------------------------------------------------------------------ -/

/-- An incoming sort wrapper as passed to add_sort: the back-end identity key
(d_sorts hashes and compares sorts by their back-end objects) and the
wrapper's current sort kind (SORT_ANY when the sort came directly from the
solver and is not yet classified). -/
structure SortIn where
  key : Nat
  kind : SortKind
deriving DecidableEq, Repr

/-- An interned sort in d_sorts: back-end key, classified kind, stable id. -/
structure SortRec where
  key : Nat
  kind : SortKind
  id : Nat
deriving DecidableEq, Repr

/-- The sort-database fragment of SolverManager: d_sorts, d_n_sorts, and
d_sort_kind_to_sorts mapping each kind to the back-end keys of its sorts. -/
structure SortDB where
  sorts : List SortRec
  n_sorts : Nat
  kindToSorts : SortKind → List Nat

/-- The empty sort database of a fresh SolverManager. -/
def initSortDB : SortDB := ⟨[], 0, fun _ => []⟩

/-- The insert-if-absent into d_sort_kind_to_sorts[sk] at the end of
add_sort. -/
def insertK (f : SortKind → List Nat) (sk : SortKind) (x : Nat) :
    SortKind → List Nat :=
  fun k => if k = sk then (if x ∈ f sk then f sk else x :: f sk) else f k

/-- SolverManager::add_sort (murxla variant): classify a SORT_ANY wrapper as
the given kind; intern the sort in d_sorts, assigning the next id (++d_n_sorts)
when its back-end object is not yet present; then insert the interned sort
into d_sort_kind_to_sorts[sort_kind] when absent.  Returns the updated
database and the interned sort (the value of the by-reference argument after
the call). -/
def add_sort (st : SortDB) (s : SortIn) (sk : SortKind) : SortDB × SortRec :=
  let inKind := if s.kind = SortKind.any then sk else s.kind
  match st.sorts.find? (fun t => t.key == s.key) with
  | none =>
    let r : SortRec := ⟨s.key, inKind, st.n_sorts + 1⟩
    (⟨r :: st.sorts, st.n_sorts + 1, insertK st.kindToSorts sk r.key⟩, r)
  | some t =>
    (⟨st.sorts, st.n_sorts, insertK st.kindToSorts sk t.key⟩, t)

/-- A sequence of add_sort calls. -/
def add_sorts (st : SortDB) : List (SortIn × SortKind) → SortDB
  | [] => st
  | c :: cs => add_sorts (add_sort st c.1 c.2).1 cs

/-- A call to add_sort in the standard regime: the kind argument is not
SORT_ANY (asserted by the source) and the wrapper's kind is either still
unclassified or agrees with the kind argument (the source's compatibility
assertion, without the solver-specific Int/Real and Bool/BV aliasing). -/
def GoodCall (c : SortIn × SortKind) : Prop :=
  c.2 ≠ SortKind.any ∧ (c.1.kind = SortKind.any ∨ c.1.kind = c.2)

instance : DecidablePred GoodCall := fun c => by
  unfold GoodCall; infer_instance

/-- The id-range invariant: every interned sort has an id in [1, n_sorts].
It holds for arbitrary add_sort calls. -/
def SortIdInv (st : SortDB) : Prop :=
  ∀ r ∈ st.sorts, 1 ≤ r.id ∧ r.id ≤ st.n_sorts

/-- The full database invariant: the id range, and every interned sort
appears in the kind-to-sorts entry of its own kind (the latter only survives
standard-regime calls). -/
def SortDBInv (st : SortDB) : Prop :=
  SortIdInv st ∧ (∀ r ∈ st.sorts, r.key ∈ st.kindToSorts r.kind)

/-- Any add_sort call preserves the id-range invariant: a fresh sort gets the
incremented n_sorts as id, an interned one keeps its id while n_sorts is
unchanged. -/
theorem sortIdInv_add_sort {st : SortDB} (hinv : SortIdInv st)
    (s : SortIn) (sk : SortKind) : SortIdInv (add_sort st s sk).1 := by
  rcases hf : st.sorts.find? (fun t => t.key == s.key) with _ | t
  · simp only [add_sort, hf]
    intro r hr
    rcases List.mem_cons.mp hr with h | h
    · subst h
      exact ⟨Nat.succ_le_succ (Nat.zero_le _), Nat.le_refl _⟩
    · have := hinv r h
      exact ⟨this.1, Nat.le_trans this.2 (Nat.le_succ _)⟩
  · simp only [add_sort, hf]
    exact hinv

/-- Any sequence of add_sort calls preserves the id-range invariant. -/
theorem sortIdInv_add_sorts {st : SortDB} (hinv : SortIdInv st) :
    ∀ calls : List (SortIn × SortKind), SortIdInv (add_sorts st calls)
  | [] => hinv
  | c :: cs => sortIdInv_add_sorts (sortIdInv_add_sort hinv c.1 c.2) cs

theorem insertK_mono {f : SortKind → List Nat} {sk : SortKind} {x : Nat}
    {k : SortKind} {y : Nat} (h : y ∈ f k) : y ∈ insertK f sk x k := by
  unfold insertK
  by_cases hk : k = sk
  · subst hk
    rw [if_pos rfl]
    by_cases hx : x ∈ f k
    · rw [if_pos hx]; exact h
    · rw [if_neg hx]; exact List.mem_cons_of_mem _ h
  · rw [if_neg hk]; exact h

theorem insertK_self (f : SortKind → List Nat) (sk : SortKind) (x : Nat) :
    x ∈ insertK f sk x sk := by
  unfold insertK
  rw [if_pos rfl]
  by_cases hx : x ∈ f sk
  · rw [if_pos hx]; exact hx
  · rw [if_neg hx]; exact List.mem_cons_self _ _

/-- One add_sort call in the standard regime preserves the database
invariant. -/
theorem sortDBInv_add_sort {st : SortDB} (hinv : SortDBInv st)
    {s : SortIn} {sk : SortKind} (hc : GoodCall (s, sk)) :
    SortDBInv (add_sort st s sk).1 := by
  obtain ⟨hid, hk⟩ := hinv
  rcases hf : st.sorts.find? (fun t => t.key == s.key) with _ | t
  · simp only [add_sort, hf]
    constructor
    · intro r hr
      rcases List.mem_cons.mp hr with h | h
      · subst h
        exact ⟨Nat.succ_le_succ (Nat.zero_le _), Nat.le_refl _⟩
      · have := hid r h
        exact ⟨this.1, Nat.le_trans this.2 (Nat.le_succ _)⟩
    · intro r hr
      rcases List.mem_cons.mp hr with h | h
      · subst h
        have hkind : (if s.kind = SortKind.any then sk else s.kind) = sk := by
          rcases hc.2 with h1 | h1
          · rw [if_pos h1]
          · by_cases h2 : s.kind = SortKind.any
            · rw [if_pos h2]
            · rw [if_neg h2]; exact h1
        simp only [hkind]
        exact insertK_self st.kindToSorts sk s.key
      · exact insertK_mono (hk r h)
  · simp only [add_sort, hf]
    exact ⟨hid, fun r hr => insertK_mono (hk r hr)⟩

/-- A sequence of standard-regime add_sort calls preserves the database
invariant. -/
theorem sortDBInv_add_sorts {st : SortDB} (hinv : SortDBInv st)
    (calls : List (SortIn × SortKind)) (hgood : ∀ c ∈ calls, GoodCall c) :
    SortDBInv (add_sorts st calls) := by
  induction calls generalizing st with
  | nil => exact hinv
  | cons c cs ih =>
    exact ih (sortDBInv_add_sort hinv (hgood c (List.mem_cons_self _ _)))
      (fun d hd => hgood d (List.mem_cons_of_mem _ hd))

/-- C2 (counterexample): the source's compatibility assertion
(solver_manager.cpp lines 212-221) also permits aliasing calls, e.g.
sort_kind == SORT_BOOL with sort->get_kind() == SORT_BV of width 1 (the
Boolector adapter), and under such a call the claimed invariant fails: after
the single call add_sort(wrapper of kind BV, SORT_BOOL) on the empty
database, the database holds the sort with kind BV, but the kind-to-sorts
entry for its kind BV does not contain it — it was registered only under the
argument kind BOOL. -/
theorem c2_counterexample :
    (add_sorts initSortDB [(⟨7, SortKind.bv⟩, SortKind.bool)]).sorts
      = [⟨7, SortKind.bv, 1⟩]
    ∧ (7 : Nat) ∉ (add_sorts initSortDB
        [(⟨7, SortKind.bv⟩, SortKind.bool)]).kindToSorts SortKind.bv
    ∧ (7 : Nat) ∈ (add_sorts initSortDB
        [(⟨7, SortKind.bv⟩, SortKind.bool)]).kindToSorts SortKind.bool := by
  decide

/-- C2 (amended): after any sequence of add_sort calls, every sort in the
database has an id in [1, n_sorts], and any single add_sort call leaves the
(possibly interned) sort present in kind-to-sorts[kind], inserting it there
when absent; the kind-to-sorts entry for the sort's own kind contains it
provided every call was in the standard regime (wrapper kind SORT_ANY or
equal to the kind argument) — under the source-legal aliasing calls the sort
is registered only under the argument kind. -/
theorem c2_amended_add_sort (calls calls2 : List (SortIn × SortKind))
    (hgood : ∀ c ∈ calls, GoodCall c)
    (st : SortDB) (s : SortIn) (sk : SortKind) :
    (∀ r ∈ (add_sorts initSortDB calls2).sorts,
        1 ≤ r.id ∧ r.id ≤ (add_sorts initSortDB calls2).n_sorts)
    ∧ (∀ r ∈ (add_sorts initSortDB calls).sorts,
        r.key ∈ (add_sorts initSortDB calls).kindToSorts r.kind)
    ∧ (add_sort st s sk).2.key ∈ (add_sort st s sk).1.kindToSorts sk := by
  have hinit : SortDBInv initSortDB := by
    constructor <;> intro r hr <;> exact absurd hr (List.not_mem_nil r)
  refine ⟨sortIdInv_add_sorts hinit.1 calls2, (sortDBInv_add_sorts hinit calls hgood).2, ?_⟩
  rcases hf : st.sorts.find? (fun t => t.key == s.key) with _ | t
  · simp only [add_sort, hf]
    exact insertK_self st.kindToSorts sk s.key
  · simp only [add_sort, hf]
    exact insertK_self st.kindToSorts sk t.key

/-- C2 (witness): three standard-regime calls — a Bool sort, an unclassified
(ANY) wrapper classified as BV, and a repeated insertion of the Bool back-end
object — establish the kind-membership invariant; the id-range invariant is
instantiated at the aliasing call of the counterexample, where it still
holds; and a single call on the empty database puts an Int sort into
kind-to-sorts[Int]. -/
theorem c2_witness :
    (∀ r ∈ (add_sorts initSortDB
        [(⟨7, SortKind.bv⟩, SortKind.bool)]).sorts,
        1 ≤ r.id ∧ r.id ≤ (add_sorts initSortDB
        [(⟨7, SortKind.bv⟩, SortKind.bool)]).n_sorts)
    ∧ (∀ r ∈ (add_sorts initSortDB
        [(⟨10, SortKind.bool⟩, SortKind.bool),
         (⟨11, SortKind.any⟩, SortKind.bv),
         (⟨10, SortKind.bool⟩, SortKind.bool)]).sorts,
        r.key ∈ (add_sorts initSortDB
        [(⟨10, SortKind.bool⟩, SortKind.bool),
         (⟨11, SortKind.any⟩, SortKind.bv),
         (⟨10, SortKind.bool⟩, SortKind.bool)]).kindToSorts r.kind)
    ∧ (add_sort initSortDB ⟨12, SortKind.any⟩ SortKind.int).2.key
        ∈ (add_sort initSortDB ⟨12, SortKind.any⟩ SortKind.int).1.kindToSorts
            SortKind.int :=
  c2_amended_add_sort
    [(⟨10, SortKind.bool⟩, SortKind.bool),
     (⟨11, SortKind.any⟩, SortKind.bv),
     (⟨10, SortKind.bool⟩, SortKind.bool)]
    [(⟨7, SortKind.bv⟩, SortKind.bool)]
    (by decide) initSortDB ⟨12, SortKind.any⟩ SortKind.int

/- ------------------------------------------------------------------------ -/
/- Command-line handling: get_options and parse_options (main.cpp)          -/
/- ------------------------------------------------------------------------ -/

/-- The first scan in get_options (main.cpp): walk argv, consume every
"-u"/"--untrace" together with its following argument (a later occurrence
overwrites the recorded untrace file), and collect all other arguments in
order.  A trailing "-u"/"--untrace" without an argument exits with an error
(none). -/
def scanUntrace : List String → Option (Option String × List String)
  | [] => some (none, [])
  | [a] =>
    if a = "-u" ∨ a = "--untrace" then none else some (none, [a])
  | a :: b :: rest =>
    if a = "-u" ∨ a = "--untrace" then
      match scanUntrace rest with
      | none => none
      | some (u, args) => some (some (u.getD b), args)
    else
      match scanUntrace (b :: rest) with
      | none => none
      | some (u, args) => some (u, a :: args)

/-- Modelled from the spec: split(line, ' ') of util.cpp (not among the
sources) tokenizes the first trace line at space characters. -/
def splitAux : List Char → List Char → List (List Char)
  | [], acc => [acc.reverse]
  | c :: cs, acc =>
    if c = ' ' then acc.reverse :: splitAux cs [] else splitAux cs (c :: acc)

/-- Modelled from the spec: split(line, ' ') of util.cpp (not among the
sources), on the string level. -/
def splitTokens (line : String) : List String :=
  (splitAux line.data []).map (fun cs => String.mk cs)

/-- The check line.rfind("set-murxla-options", 0) == 0 of get_options: the
line begins with the given word. -/
def strStartsWith (s p : String) : Bool := p.data.isPrefixOf s.data

/-- get_options (main.cpp): extract the untrace file name from argv; when an
untrace file was given, the file can be read (firstLine = some line) and its
first line begins with "set-murxla-options", insert the tokens of that line
after the keyword at the front of the argument list. -/
def get_options (argv : List String) (firstLine : Option String) :
    Option (Option String × List String) :=
  match scanUntrace argv with
  | none => none
  | some (u, args) =>
    match u with
    | none => some (none, args)
    | some f =>
      match firstLine with
      | none => some (some f, args)
      | some line =>
        if strStartsWith line "set-murxla-options" then
          some (some f, (splitTokens line).drop 1 ++ args)
        else some (some f, args)

/-- The flags whose following argument is skipped together with the flag when
recording the command line for tracing (parse_options, main.cpp). -/
def isValueFlag (a : String) : Bool :=
  a == "-s" || a == "--seed" || a == "-a" || a == "--api-trace"

/-- The flags skipped alone when recording the command line for tracing. -/
def isDDFlag (a : String) : Bool := a == "-d" || a == "--dd"

/-- The recording loop at the end of parse_options (main.cpp): skip the seed
and api-trace flags together with the following argument, skip the dd flags,
keep everything else in order. -/
def recordOpts : List String → List String
  | [] => []
  | [a] => if isValueFlag a then [] else if isDDFlag a then [] else [a]
  | a :: b :: rest =>
    if isValueFlag a then recordOpts rest
    else if isDDFlag a then recordOpts (b :: rest)
    else a :: recordOpts (b :: rest)

/-- Options::cmd_line_trace as built by parse_options: the stream starts with
"set-murxla-options" and appends a space and the argument for every kept
argument. -/
def cmd_line_trace (args : List String) : String :=
  (recordOpts args).foldl (fun acc x => acc ++ " " ++ x) "set-murxla-options"

theorem strAppend_assoc (a b c : String) : a ++ b ++ c = a ++ (b ++ c) := by
  apply String.ext
  simp [String.data_append]

/-- Folding the trace-stream appends onto s yields a string extending s. -/
theorem foldl_append_extends (l : List String) (s : String) :
    ∃ t, l.foldl (fun acc x => acc ++ " " ++ x) s = s ++ t := by
  induction l generalizing s with
  | nil =>
    refine ⟨"", ?_⟩
    apply String.ext
    simp [String.data_append]
  | cons x xs ih =>
    obtain ⟨t, ht⟩ := ih (s ++ " " ++ x)
    refine ⟨" " ++ x ++ t, ?_⟩
    rw [List.foldl_cons, ht, strAppend_assoc, strAppend_assoc, strAppend_assoc]

/-- The untrace flags never survive the get_options scan. -/
theorem scanUntrace_no_untrace :
    ∀ (argv : List String) (u : Option String) (args : List String),
      scanUntrace argv = some (u, args) → "-u" ∉ args ∧ "--untrace" ∉ args
  | [], u, args, h => by
    simp only [scanUntrace, Option.some.injEq, Prod.mk.injEq] at h
    rw [← h.2]
    exact ⟨List.not_mem_nil _, List.not_mem_nil _⟩
  | [a], u, args, h => by
    by_cases hu : a = "-u" ∨ a = "--untrace"
    · rw [scanUntrace, if_pos hu] at h
      exact absurd h (by simp)
    · rw [scanUntrace, if_neg hu] at h
      simp only [Option.some.injEq, Prod.mk.injEq] at h
      obtain ⟨-, h2⟩ := h
      subst h2
      push_neg at hu
      constructor
      · simp only [List.mem_singleton]
        exact fun hh => hu.1 hh.symm
      · simp only [List.mem_singleton]
        exact fun hh => hu.2 hh.symm
  | a :: b :: rest, u, args, h => by
    by_cases hu : a = "-u" ∨ a = "--untrace"
    · rw [scanUntrace, if_pos hu] at h
      rcases hs : scanUntrace rest with _ | ⟨u2, args2⟩
      · rw [hs] at h
        exact absurd h (by simp)
      · rw [hs] at h
        simp only [Option.some.injEq, Prod.mk.injEq] at h
        obtain ⟨-, hargs⟩ := h
        subst hargs
        exact scanUntrace_no_untrace rest u2 args2 hs
    · rw [scanUntrace, if_neg hu] at h
      rcases hs : scanUntrace (b :: rest) with _ | ⟨u2, args2⟩
      · rw [hs] at h
        exact absurd h (by simp)
      · rw [hs] at h
        simp only [Option.some.injEq, Prod.mk.injEq] at h
        obtain ⟨-, hargs⟩ := h
        subst hargs
        push_neg at hu
        have hih := scanUntrace_no_untrace (b :: rest) u2 args2 hs
        constructor
        · intro hm
          rcases List.mem_cons.mp hm with hm | hm
          · exact hu.1 hm.symm
          · exact hih.1 hm
        · intro hm
          rcases List.mem_cons.mp hm with hm | hm
          · exact hu.2 hm.symm
          · exact hih.2 hm

/-- The recorded arguments are a subsequence of the parsed arguments. -/
theorem recordOpts_sublist : ∀ args : List String, (recordOpts args).Sublist args
  | [] => by
    rw [recordOpts]
  | [a] => by
    rw [recordOpts]
    by_cases h1 : isValueFlag a = true
    · rw [if_pos h1]
      exact List.nil_sublist [a]
    · rw [if_neg h1]
      by_cases h2 : isDDFlag a = true
      · rw [if_pos h2]
        exact List.nil_sublist [a]
      · rw [if_neg h2]
  | a :: b :: rest => by
    rw [recordOpts]
    by_cases h1 : isValueFlag a = true
    · rw [if_pos h1]
      exact (recordOpts_sublist rest).trans
        ((List.sublist_cons_self b rest).trans
          (List.sublist_cons_self a (b :: rest)))
    · rw [if_neg h1]
      by_cases h2 : isDDFlag a = true
      · rw [if_pos h2]
        exact (recordOpts_sublist (b :: rest)).trans
          (List.sublist_cons_self a (b :: rest))
      · rw [if_neg h2]
        exact (recordOpts_sublist (b :: rest)).cons₂ a

/-- Every recorded argument is neither a skipped value flag nor a skipped dd
flag. -/
theorem recordOpts_no_flags :
    ∀ args : List String, ∀ x ∈ recordOpts args,
      isValueFlag x = false ∧ isDDFlag x = false
  | [], x, hx => absurd (by rw [recordOpts] at hx; exact hx) (List.not_mem_nil x)
  | [a], x, hx => by
    rw [recordOpts] at hx
    by_cases h1 : isValueFlag a = true
    · rw [if_pos h1] at hx
      exact absurd hx (List.not_mem_nil x)
    · rw [if_neg h1] at hx
      by_cases h2 : isDDFlag a = true
      · rw [if_pos h2] at hx
        exact absurd hx (List.not_mem_nil x)
      · rw [if_neg h2] at hx
        rw [List.mem_singleton.mp hx]
        exact ⟨by simpa using h1, by simpa using h2⟩
  | a :: b :: rest, x, hx => by
    rw [recordOpts] at hx
    by_cases h1 : isValueFlag a = true
    · rw [if_pos h1] at hx
      exact recordOpts_no_flags rest x hx
    · rw [if_neg h1] at hx
      by_cases h2 : isDDFlag a = true
      · rw [if_pos h2] at hx
        exact recordOpts_no_flags (b :: rest) x hx
      · rw [if_neg h2] at hx
        rcases List.mem_cons.mp hx with hh | hh
        · rw [hh]
          exact ⟨by simpa using h1, by simpa using h2⟩
        · exact recordOpts_no_flags (b :: rest) x hh

/-- C4: when the untrace file exists and its first line begins with
"set-murxla-options", get_options inserts the tokens following that keyword
on the first line at the front of the argument list, ahead of the remaining
command-line arguments, so they are parsed as run configuration first. -/
theorem c4_get_options_prepends (argv : List String) (f line : String)
    (args : List String)
    (hscan : scanUntrace argv = some (some f, args))
    (hline : strStartsWith line "set-murxla-options" = true) :
    get_options argv (some line)
      = some (some f, (splitTokens line).drop 1 ++ args) := by
  simp [get_options, hscan, hline]

/-- C4 (witness): replaying trace.txt whose first line is
"set-murxla-options --bv --linear" prepends the tokens --bv and --linear to
the remaining argument --stats. -/
theorem c4_witness :
    get_options ["-u", "trace.txt", "--stats"]
        (some "set-murxla-options --bv --linear")
      = some (some "trace.txt",
          (splitTokens "set-murxla-options --bv --linear").drop 1
            ++ ["--stats"]) :=
  c4_get_options_prepends ["-u", "trace.txt", "--stats"] "trace.txt"
    "set-murxla-options --bv --linear" ["--stats"] (by decide) (by decide)

/-- C5: for every command line surviving the get_options scan, the recorded
configuration line starts with "set-murxla-options", the recorded arguments
contain none of the untrace, seed, api-trace and dd flags, the recorded
arguments are a subsequence of the parsed arguments (original order), and the
argument value following a seed or api-trace flag is skipped together with
the flag. -/
theorem c5_cmd_line_trace (argv : List String) (u : Option String)
    (args : List String) (v : String) (rest : List String)
    (hscan : scanUntrace argv = some (u, args)) :
    (∃ t, cmd_line_trace args = "set-murxla-options" ++ t)
    ∧ (∀ x ∈ recordOpts args,
        x ∉ ["-u", "--untrace", "-s", "--seed", "-a", "--api-trace",
             "-d", "--dd"])
    ∧ (recordOpts args).Sublist args
    ∧ recordOpts ("-s" :: v :: rest) = recordOpts rest
    ∧ recordOpts ("--seed" :: v :: rest) = recordOpts rest
    ∧ recordOpts ("-a" :: v :: rest) = recordOpts rest
    ∧ recordOpts ("--api-trace" :: v :: rest) = recordOpts rest := by
  refine ⟨foldl_append_extends _ _, ?_, recordOpts_sublist args, ?_, ?_, ?_, ?_⟩
  · intro x hx hmem
    have h1 := recordOpts_no_flags args x hx
    have h2 : x ∈ args := (recordOpts_sublist args).subset hx
    have h3 := scanUntrace_no_untrace argv u args hscan
    simp only [List.mem_cons, List.not_mem_nil, or_false] at hmem
    rcases hmem with rfl | rfl | rfl | rfl | rfl | rfl | rfl | rfl
    · exact h3.1 h2
    · exact h3.2 h2
    · exact absurd h1.1 (by decide)
    · exact absurd h1.1 (by decide)
    · exact absurd h1.1 (by decide)
    · exact absurd h1.1 (by decide)
    · exact absurd h1.2 (by decide)
    · exact absurd h1.2 (by decide)
  · rw [recordOpts, if_pos (show isValueFlag "-s" = true by decide)]
  · rw [recordOpts, if_pos (show isValueFlag "--seed" = true by decide)]
  · rw [recordOpts, if_pos (show isValueFlag "-a" = true by decide)]
  · rw [recordOpts, if_pos (show isValueFlag "--api-trace" = true by decide)]

/-- C5 (witness): the command line --cvc5 -s 10 -a f.trace -d --stats is
recorded without the seed and api-trace flags and their values and without
the dd flag. -/
theorem c5_witness :
    (∃ t, cmd_line_trace ["--cvc5", "-s", "10", "-a", "f.trace", "-d", "--stats"]
        = "set-murxla-options" ++ t)
    ∧ (∀ x ∈ recordOpts ["--cvc5", "-s", "10", "-a", "f.trace", "-d", "--stats"],
        x ∉ ["-u", "--untrace", "-s", "--seed", "-a", "--api-trace",
             "-d", "--dd"])
    ∧ (recordOpts ["--cvc5", "-s", "10", "-a", "f.trace", "-d", "--stats"]).Sublist
        ["--cvc5", "-s", "10", "-a", "f.trace", "-d", "--stats"]
    ∧ recordOpts ("-s" :: "v" :: []) = recordOpts []
    ∧ recordOpts ("--seed" :: "v" :: []) = recordOpts []
    ∧ recordOpts ("-a" :: "v" :: []) = recordOpts []
    ∧ recordOpts ("--api-trace" :: "v" :: []) = recordOpts [] :=
  c5_cmd_line_trace ["--cvc5", "-s", "10", "-a", "f.trace", "-d", "--stats"]
    none ["--cvc5", "-s", "10", "-a", "f.trace", "-d", "--stats"] "v" []
    (by decide)

/- ------------------------------------------------------------------------ -/
/- Operator-kind selection: SolverManager::pick_op_kind (solver_manager.cpp) -/
/- ------------------------------------------------------------------------ -/

/-- Operator kinds are strings (Op::Kind). -/
abbrev OpKind := String

/-- Op::UNDEFINED. -/
def OP_UNDEFINED : OpKind := "OP_UNDEFINED"

/-- Op::FORALL. -/
def OP_FORALL : OpKind := "OP_FORALL"

/-- Op::EXISTS. -/
def OP_EXISTS : OpKind := "OP_EXISTS"

/-- An operator record as kept by the operator-kind registry: kind, arity
(negative for variadic operators), argument sort kinds and theory.  These are
the fields d_kind, d_arity, the argument sort-kind list and d_theory read by
pick_op_kind (op.hpp is not among the sources). -/
structure Op where
  kind : OpKind
  arity : Int
  argSortKinds : List SortKind
  theory : TheoryId
deriving DecidableEq, Repr

/-- Modelled from the spec: Op::get_arg_sort_kind (op.cpp is not among the
sources): the argument sort-kind list indexed positionally; indices past the
end (the remaining arguments of a variadic operator, which all share one sort
kind) yield the last entry. -/
def Op.getArgSortKind (op : Op) (i : Nat) : SortKind :=
  op.argSortKinds.getD i (op.argSortKinds.getLastD SortKind.any)

/-- The per-operator filter of pick_op_kind(with_terms = true): quantifiers
require a variable and a quantifier body in the current scope; for a variadic
operator a term of the first argument sort kind must exist, otherwise a term
of each of the arity many argument sort kinds. -/
def opQualifies (hasTerm : SortKind → Bool) (hasVar hasQuantBody : Bool)
    (op : Op) : Bool :=
  (if op.kind = OP_FORALL ∨ op.kind = OP_EXISTS
   then hasVar && hasQuantBody else true)
  && (if op.arity < 0 then hasTerm (op.getArgSortKind 0)
      else (List.range op.arity.toNat).all fun i => hasTerm (op.getArgSortKind i))

/-- kinds[op.d_theory].insert(op.d_kind): insert an operator kind into the
per-theory bucket map (an association list in first-insertion order standing
for the iteration order of the unordered kinds map). -/
def addGroup (g : List (TheoryId × List OpKind)) (t : TheoryId) (k : OpKind) :
    List (TheoryId × List OpKind) :=
  match g with
  | [] => [(t, [k])]
  | (t2, ks) :: grest =>
    if t2 = t then (t2, if k ∈ ks then ks else ks ++ [k]) :: grest
    else (t2, ks) :: addGroup grest t k

/-- The kinds map of pick_op_kind(with_terms = true): the qualifying operator
kinds bucketed by theory. -/
def buildGroups (ops : List Op) (hasTerm : SortKind → Bool)
    (hasVar hasQuantBody : Bool) : List (TheoryId × List OpKind) :=
  ops.foldl
    (fun g op =>
      if opQualifies hasTerm hasVar hasQuantBody op
      then addGroup g op.theory op.kind else g) []

/-- rng.pick_from_map over the kinds map: the theory bucket at the drawn
position. -/
def pickTheoryBucket (g : List (TheoryId × List OpKind)) (r1 : Nat) :
    TheoryId × List OpKind :=
  g.getD (r1 % g.length) (TheoryId.THEORY_BOOL, [])

/-- SolverManager::pick_op_kind(with_terms = true): bucket the qualifying
operator kinds by theory; when no kind qualifies return Op::UNDEFINED,
otherwise first draw a theory (oracle draw r1) and then a kind within that
theory's bucket (oracle draw r2). -/
def pick_op_kind (ops : List Op) (hasTerm : SortKind → Bool)
    (hasVar hasQuantBody : Bool) (r1 r2 : Nat) : OpKind :=
  if buildGroups ops hasTerm hasVar hasQuantBody = [] then OP_UNDEFINED
  else
    (pickTheoryBucket (buildGroups ops hasTerm hasVar hasQuantBody) r1).2.getD
      (r2 % (pickTheoryBucket (buildGroups ops hasTerm hasVar hasQuantBody)
              r1).2.length)
      OP_UNDEFINED

/-- The bucket invariant: every theory bucket is non-empty and every kind in
the bucket of theory t comes from a qualifying operator of theory t. -/
def GroupsOK (ops : List Op) (hasTerm : SortKind → Bool)
    (hasVar hasQuantBody : Bool) (g : List (TheoryId × List OpKind)) : Prop :=
  ∀ p ∈ g, p.2 ≠ [] ∧ ∀ k ∈ p.2, ∃ op, op ∈ ops ∧ op.kind = k
    ∧ op.theory = p.1 ∧ opQualifies hasTerm hasVar hasQuantBody op = true

theorem groupsOK_addGroup {ops : List Op} {hasTerm : SortKind → Bool}
    {hasVar hasQuantBody : Bool} {g : List (TheoryId × List OpKind)}
    (hg : GroupsOK ops hasTerm hasVar hasQuantBody g) {o : Op}
    (ho : o ∈ ops) (hq : opQualifies hasTerm hasVar hasQuantBody o = true) :
    GroupsOK ops hasTerm hasVar hasQuantBody (addGroup g o.theory o.kind) := by
  induction g with
  | nil =>
    intro p hp
    rcases List.mem_singleton.mp hp with rfl
    refine ⟨by simp, ?_⟩
    intro k hk
    rcases List.mem_singleton.mp hk with rfl
    exact ⟨o, ho, rfl, rfl, hq⟩
  | cons q grest ih =>
    obtain ⟨t2, ks⟩ := q
    intro p hp
    rw [addGroup] at hp
    by_cases ht : t2 = o.theory
    · rw [if_pos ht] at hp
      rcases List.mem_cons.mp hp with rfl | hp
      · have hhead := hg (t2, ks) (List.mem_cons_self _ _)
        constructor
        · by_cases hin : o.kind ∈ ks
          · rw [if_pos hin]
            exact hhead.1
          · rw [if_neg hin]
            simp
        · intro k hk
          by_cases hin : o.kind ∈ ks
          · rw [if_pos hin] at hk
            exact hhead.2 k hk
          · rw [if_neg hin] at hk
            rcases List.mem_append.mp hk with hk | hk
            · exact hhead.2 k hk
            · rcases List.mem_singleton.mp hk with rfl
              exact ⟨o, ho, rfl, ht.symm, hq⟩
      · exact hg p (List.mem_cons_of_mem _ hp)
    · rw [if_neg ht] at hp
      rcases List.mem_cons.mp hp with rfl | hp
      · exact hg (t2, ks) (List.mem_cons_self _ _)
      · have hg2 : GroupsOK ops hasTerm hasVar hasQuantBody grest :=
          fun q2 hq2 => hg q2 (List.mem_cons_of_mem _ hq2)
        exact ih hg2 p hp

theorem groupsOK_foldl {ops : List Op} {hasTerm : SortKind → Bool}
    {hasVar hasQuantBody : Bool} :
    ∀ (l : List Op) (g : List (TheoryId × List OpKind)),
      (∀ o ∈ l, o ∈ ops) → GroupsOK ops hasTerm hasVar hasQuantBody g →
      GroupsOK ops hasTerm hasVar hasQuantBody
        (l.foldl
          (fun g op =>
            if opQualifies hasTerm hasVar hasQuantBody op
            then addGroup g op.theory op.kind else g) g)
  | [], g, _, hg => hg
  | o :: l, g, hl, hg => by
    rw [List.foldl_cons]
    refine groupsOK_foldl l _ (fun o2 ho2 => hl o2 (List.mem_cons_of_mem _ ho2)) ?_
    by_cases hq : opQualifies hasTerm hasVar hasQuantBody o = true
    · rw [if_pos hq]
      exact groupsOK_addGroup hg (hl o (List.mem_cons_self _ _)) hq
    · rw [if_neg hq]
      exact hg

theorem groupsOK_buildGroups (ops : List Op) (hasTerm : SortKind → Bool)
    (hasVar hasQuantBody : Bool) :
    GroupsOK ops hasTerm hasVar hasQuantBody
      (buildGroups ops hasTerm hasVar hasQuantBody) :=
  groupsOK_foldl ops [] (fun _ h => h) (fun p hp => absurd hp (List.not_mem_nil p))

/-- When no operator qualifies, the foldl never inserts anything. -/
theorem buildGroups_empty {ops : List Op} {hasTerm : SortKind → Bool}
    {hasVar hasQuantBody : Bool}
    (h : ∀ o ∈ ops, opQualifies hasTerm hasVar hasQuantBody o = false) :
    buildGroups ops hasTerm hasVar hasQuantBody = [] := by
  unfold buildGroups
  induction ops with
  | nil => rfl
  | cons o l ih =>
    rw [List.foldl_cons,
      if_neg (by rw [h o (List.mem_cons_self _ _)]; exact Bool.false_ne_true)]
    exact ih fun o2 ho2 => h o2 (List.mem_cons_of_mem _ ho2)

/-- From a qualifying operator of a well-formed catalog, every argument sort
kind has a term. -/
theorem opQualifies_args {hasTerm : SortKind → Bool} {hasVar hasQuantBody : Bool}
    {op : Op}
    (hwf : (op.arity < 0 → op.argSortKinds.length = 1)
      ∧ (0 < op.arity → op.argSortKinds.length ≤ op.arity.toNat)
      ∧ (op.arity = 0 → op.argSortKinds = []))
    (hq : opQualifies hasTerm hasVar hasQuantBody op = true) :
    (∀ sk ∈ op.argSortKinds, hasTerm sk = true)
    ∧ ((op.kind = OP_FORALL ∨ op.kind = OP_EXISTS) →
        hasVar = true ∧ hasQuantBody = true) := by
  unfold opQualifies at hq
  obtain ⟨hquant, hterms⟩ := Bool.and_eq_true_iff.mp hq
  constructor
  · intro sk hsk
    obtain ⟨⟨j, hj⟩, hget⟩ := List.mem_iff_get.mp hsk
    by_cases ha : op.arity < 0
    · rw [if_pos ha] at hterms
      have hlen := hwf.1 ha
      have hj0 : j = 0 := by omega
      subst hj0
      have : op.getArgSortKind 0 = sk := by
        unfold Op.getArgSortKind
        rw [List.getD_eq_getElem _ _ hj]
        simpa using hget
      rw [← this]
      exact hterms
    · rw [if_neg ha] at hterms
      have hjr : j < op.arity.toNat := by
        rcases Int.lt_or_lt_of_ne (fun h0 => by
          rw [hwf.2.2 h0] at hj; simp at hj) with hlt | hgt
        · exact absurd hlt ha
        · have := hwf.2.1 hgt
          omega
      have := List.all_eq_true.mp hterms j (List.mem_range.mpr hjr)
      have hgd : op.getArgSortKind j = sk := by
        unfold Op.getArgSortKind
        rw [List.getD_eq_getElem _ _ hj]
        simpa using hget
      rw [← hgd]
      exact this
  · intro hk
    rw [if_pos hk] at hquant
    exact Bool.and_eq_true_iff.mp hquant

/-- C6: every operator kind returned by pick_op_kind(with_terms = true) on a
well-formed operator catalog comes from a qualifying operator: a term exists
for each of its argument sort kinds, and FORALL and EXISTS are returned only
when a variable and a quantifier-body term exist; the kind is drawn from the
bucket of a previously drawn theory; and when no operator qualifies,
Op::UNDEFINED is returned. -/
theorem c6_pick_op_kind (ops : List Op) (hasTerm : SortKind → Bool)
    (hasVar hasQuantBody : Bool) (r1 r2 : Nat)
    (hwf : ∀ op ∈ ops,
      (op.arity < 0 → op.argSortKinds.length = 1)
      ∧ (0 < op.arity → op.argSortKinds.length ≤ op.arity.toNat)
      ∧ (op.arity = 0 → op.argSortKinds = [])) :
    (pick_op_kind ops hasTerm hasVar hasQuantBody r1 r2 ≠ OP_UNDEFINED →
      ∃ op, op ∈ ops
        ∧ op.kind = pick_op_kind ops hasTerm hasVar hasQuantBody r1 r2
        ∧ op.theory = (pickTheoryBucket
            (buildGroups ops hasTerm hasVar hasQuantBody) r1).1
        ∧ opQualifies hasTerm hasVar hasQuantBody op = true
        ∧ (∀ sk ∈ op.argSortKinds, hasTerm sk = true)
        ∧ ((op.kind = OP_FORALL ∨ op.kind = OP_EXISTS) →
            hasVar = true ∧ hasQuantBody = true))
    ∧ ((∀ op ∈ ops, opQualifies hasTerm hasVar hasQuantBody op = false) →
        pick_op_kind ops hasTerm hasVar hasQuantBody r1 r2 = OP_UNDEFINED) := by
  constructor
  · intro hne
    unfold pick_op_kind at hne ⊢
    by_cases hgr : buildGroups ops hasTerm hasVar hasQuantBody = []
    · rw [if_pos hgr] at hne
      exact absurd rfl hne
    · rw [if_neg hgr] at hne ⊢
      have hok := groupsOK_buildGroups ops hasTerm hasVar hasQuantBody
      have hlt1 : r1 % (buildGroups ops hasTerm hasVar hasQuantBody).length
          < (buildGroups ops hasTerm hasVar hasQuantBody).length :=
        Nat.mod_lt _ (List.length_pos.mpr hgr)
      have htkmem :
          pickTheoryBucket (buildGroups ops hasTerm hasVar hasQuantBody) r1
            ∈ buildGroups ops hasTerm hasVar hasQuantBody := by
        unfold pickTheoryBucket
        rw [List.getD_eq_getElem _ _ hlt1]
        exact List.getElem_mem _
      obtain ⟨hne2, hks⟩ := hok _ htkmem
      have hlt2 : r2 % (pickTheoryBucket
            (buildGroups ops hasTerm hasVar hasQuantBody) r1).2.length
          < (pickTheoryBucket
              (buildGroups ops hasTerm hasVar hasQuantBody) r1).2.length :=
        Nat.mod_lt _ (List.length_pos.mpr hne2)
      have hkmem : (pickTheoryBucket
            (buildGroups ops hasTerm hasVar hasQuantBody) r1).2.getD
              (r2 % (pickTheoryBucket
                (buildGroups ops hasTerm hasVar hasQuantBody) r1).2.length)
              OP_UNDEFINED
          ∈ (pickTheoryBucket
              (buildGroups ops hasTerm hasVar hasQuantBody) r1).2 := by
        rw [List.getD_eq_getElem _ _ hlt2]
        exact List.getElem_mem _
      obtain ⟨op, hop, hkind, hth, hq⟩ := hks _ hkmem
      obtain ⟨hargs, hquant⟩ := opQualifies_args (hwf op hop) hq
      exact ⟨op, hop, hkind, hth, hq, hargs, hquant⟩
  · intro hall
    unfold pick_op_kind
    rw [buildGroups_empty hall]
    rw [if_pos rfl]

/-- C6 (witness): on a catalog with a variadic AND over Bool, a binary
BV_ULT over BV and a FORALL, with Bool and BV terms, a variable and a
quantifier body present, the kind returned at draws (1, 0) qualifies. -/
theorem c6_witness :
    (pick_op_kind
        [Op.mk "OP_AND" (-1) [SortKind.bool] TheoryId.THEORY_BOOL,
         Op.mk "OP_BV_ULT" 2 [SortKind.bv] TheoryId.THEORY_BV,
         Op.mk OP_FORALL 2 [SortKind.any, SortKind.bool] TheoryId.THEORY_QUANT]
        (fun _ => true) true true 1 0 ≠ OP_UNDEFINED →
      ∃ op, op ∈
        [Op.mk "OP_AND" (-1) [SortKind.bool] TheoryId.THEORY_BOOL,
         Op.mk "OP_BV_ULT" 2 [SortKind.bv] TheoryId.THEORY_BV,
         Op.mk OP_FORALL 2 [SortKind.any, SortKind.bool] TheoryId.THEORY_QUANT]
        ∧ op.kind = pick_op_kind
            [Op.mk "OP_AND" (-1) [SortKind.bool] TheoryId.THEORY_BOOL,
             Op.mk "OP_BV_ULT" 2 [SortKind.bv] TheoryId.THEORY_BV,
             Op.mk OP_FORALL 2 [SortKind.any, SortKind.bool] TheoryId.THEORY_QUANT]
            (fun _ => true) true true 1 0
        ∧ op.theory = (pickTheoryBucket
            (buildGroups
              [Op.mk "OP_AND" (-1) [SortKind.bool] TheoryId.THEORY_BOOL,
               Op.mk "OP_BV_ULT" 2 [SortKind.bv] TheoryId.THEORY_BV,
               Op.mk OP_FORALL 2 [SortKind.any, SortKind.bool]
                 TheoryId.THEORY_QUANT]
              (fun _ => true) true true) 1).1
        ∧ opQualifies (fun _ => true) true true op = true
        ∧ (∀ sk ∈ op.argSortKinds, (fun _ => true : SortKind → Bool) sk = true)
        ∧ ((op.kind = OP_FORALL ∨ op.kind = OP_EXISTS) →
            true = true ∧ true = true))
    ∧ ((∀ op ∈
        [Op.mk "OP_AND" (-1) [SortKind.bool] TheoryId.THEORY_BOOL,
         Op.mk "OP_BV_ULT" 2 [SortKind.bv] TheoryId.THEORY_BV,
         Op.mk OP_FORALL 2 [SortKind.any, SortKind.bool] TheoryId.THEORY_QUANT],
         opQualifies (fun _ => true) true true op = false) →
        pick_op_kind
          [Op.mk "OP_AND" (-1) [SortKind.bool] TheoryId.THEORY_BOOL,
           Op.mk "OP_BV_ULT" 2 [SortKind.bv] TheoryId.THEORY_BV,
           Op.mk OP_FORALL 2 [SortKind.any, SortKind.bool] TheoryId.THEORY_QUANT]
          (fun _ => true) true true 1 0 = OP_UNDEFINED) :=
  c6_pick_op_kind
    [Op.mk "OP_AND" (-1) [SortKind.bool] TheoryId.THEORY_BOOL,
     Op.mk "OP_BV_ULT" 2 [SortKind.bv] TheoryId.THEORY_BV,
     Op.mk OP_FORALL 2 [SortKind.any, SortKind.bool] TheoryId.THEORY_QUANT]
    (fun _ => true) true true 1 0 (by decide)

end Murxla
